import Mathlib

/-!
Verification of the connection-registry / broadcast-fanout core of the
websocket broadcast hub (src/broadcast-server.py, class BroadcastServer).

Shallow embedding: a connection handle is a `Nat`.  The transport behaviour
of each handle is abstracted by a predicate `F : Nat → Bool` ("fails"):
`F c = true` means every `send` to handle `c` raises a transport error
(ConnectionClosed / ConnectionResetError / other exception) and delivers
nothing, `F c = false` means every `send` to `c` succeeds and the message
is appended to `c`'s inbox.  The observable world is:

  * `clients` — the mutable set `self.clients` (a duplicate-free list);
  * `inbox c` — the sequence of envelopes successfully delivered to `c`;
  * `log`    — the global sequence of send *attempts* `(recipient, envelope)`,
               in initiation order (an attempt is logged whether or not the
               send succeeds);
  * `clock`  — an abstract counter standing for `datetime.now()`: each
               envelope the hub constructs is stamped with the current clock
               and the clock is advanced.

The python functions are total Lean functions on this state; exceptions in
the source are modelled where they are observable (a failing send inside a
broadcast loop is swallowed and the handle recorded for reaping; a failing
welcome send in `register_client` propagates out of `handle_client`, which
is modelled by the `Bool` component of `handle_client`'s result).
`broadcast_to_all` and `unregister_client` are mutually recursive in the
source (reaping a handle broadcasts a leave notification, which can reap
further handles); the recursion is bounded by a `fuel` argument counting
the nesting depth of broadcast passes — every removal strictly shrinks the
registry, so `fuel` larger than the registry size is always enough, which
the theorems make explicit.
-/

/-- A wire envelope, the JSON object built by the hub
(src/broadcast-server.py lines 32-36, 40-44, 56-60, 115-120):
fields `type`, `message`, optional `sender`, and the hub timestamp
(ISO-8601 in the source, an abstract `Nat` instant here). -/
structure Envelope where
  type : String
  message : String
  sender : Option String
  timestamp : Nat
deriving DecidableEq

/-- A successfully parsed inbound JSON object, as consumed by
`handle_client` (src/broadcast-server.py lines 111-118): the three fields
the hub reads with `data.get`.  A missing field is `none`. -/
structure JsonData where
  type : Option String
  message : Option String
  sender : Option String
deriving DecidableEq

/-- The state of the hub together with the observable effects on peers. -/
structure ServerState where
  clients : List Nat
  inbox : Nat → List Envelope
  log : List (Nat × Envelope)
  clock : Nat

/-- The hub with no clients connected and nothing sent yet. -/
def init_state : ServerState := ⟨[], fun _ => [], [], 0⟩

/-- The welcome envelope of `register_client`
(src/broadcast-server.py lines 32-36), with the live count `n` in the text. -/
def welcome_env (n t : Nat) : Envelope :=
  ⟨"system",
   "Welcome! You are now connected to the broadcast server. " ++ toString n
     ++ " client(s) online.",
   none, t⟩

/-- The join notification of `register_client`
(src/broadcast-server.py lines 40-44). -/
def join_env (n t : Nat) : Envelope :=
  ⟨"system",
   "A new client has joined the chat. " ++ toString n ++ " client(s) online.",
   none, t⟩

/-- The leave notification of `unregister_client`
(src/broadcast-server.py lines 56-60). -/
def leave_env (n t : Nat) : Envelope :=
  ⟨"system",
   "A client has left the chat. " ++ toString n ++ " client(s) online.",
   none, t⟩

/-- One `await client.send(message)` attempt inside a broadcast loop
(src/broadcast-server.py lines 71-77 and 91-97): the attempt is logged;
on success the envelope reaches `c`'s inbox; on failure (`F c = true`)
nothing is delivered (the source appends `c` to `disconnected_clients`,
which the callers of `attempt` handle separately). -/
def attempt (F : Nat → Bool) (m : Envelope) (c : Nat) (st : ServerState) :
    ServerState :=
  { st with
    log := st.log ++ [(c, m)],
    inbox :=
      if F c then st.inbox
      else fun x => if x = c then st.inbox x ++ [m] else st.inbox x }

/-- The delivery loop of a broadcast pass over the snapshot `ts`
(src/broadcast-server.py lines 70-77): attempts are made one after the
other; a failed send is swallowed and the loop continues. -/
def deliver (F : Nat → Bool) (m : Envelope) : List Nat → ServerState → ServerState
  | [], st => st
  | c :: cs, st => deliver F m cs (attempt F m c st)

/-- The body of `unregister_client` (src/broadcast-server.py lines 47-61),
abstracted over the broadcast operation `rec` it uses for the leave
notification (in the source this is `self.broadcast_to_all`): if the handle
is present it is removed, and if clients remain a leave notification with
the updated count is broadcast; otherwise it is a no-op. -/
def reapOne (rec : Envelope → ServerState → ServerState) (c : Nat)
    (st : ServerState) : ServerState :=
  if c ∈ st.clients then
    if (st.clients.erase c).isEmpty then { st with clients := st.clients.erase c }
    else
      rec (leave_env (st.clients.erase c).length st.clock)
        { st with clients := st.clients.erase c, clock := st.clock + 1 }
  else st

/-- The reap phase of a broadcast pass (src/broadcast-server.py lines 79-81
and 99-101): each handle collected in `disconnected_clients` is passed to
`unregister_client` in order. -/
def reapList (rec : Envelope → ServerState → ServerState) (cs : List Nat)
    (st : ServerState) : ServerState :=
  List.foldl (fun s c => reapOne rec c s) st cs

/-- `BroadcastServer.broadcast_to_all` (src/broadcast-server.py lines 63-81):
if any clients are connected, take a snapshot (`clients_copy`), attempt the
send to every snapshot member, collect the handles whose send failed, and
then unregister exactly those.  `fuel` bounds the nesting depth of the
broadcast passes triggered by the reaping; at `fuel = 0` a pass does
nothing (the theorems require fuel above the registry size, which is always
sufficient since every nested pass follows a strict removal). -/
def broadcast_to_all (F : Nat → Bool) : Nat → Envelope → ServerState → ServerState
  | 0, _, st => st
  | fuel + 1, m, st =>
    if st.clients.isEmpty then st
    else
      reapList (broadcast_to_all F fuel) (st.clients.filter F)
        (deliver F m st.clients st)

/-- `BroadcastServer.unregister_client` (src/broadcast-server.py lines
47-61), whose leave notification goes through `broadcast_to_all`. -/
def unregister_client (F : Nat → Bool) (fuel : Nat) (c : Nat)
    (st : ServerState) : ServerState :=
  reapOne (broadcast_to_all F fuel) c st

/-- The reap loop of a broadcast pass, with `unregister_client` plugged in. -/
def unregister_list (F : Nat → Bool) (fuel : Nat) (cs : List Nat)
    (st : ServerState) : ServerState :=
  reapList (broadcast_to_all F fuel) cs st

/-- `BroadcastServer.broadcast_to_others` (src/broadcast-server.py lines
83-101): like `broadcast_to_all` but the send is only attempted for
snapshot members different from `sender`; failed recipients are collected
and unregistered after the pass. -/
def broadcast_to_others (F : Nat → Bool) (fuel : Nat) (m : Envelope)
    (sender : Nat) (st : ServerState) : ServerState :=
  if st.clients.isEmpty then st
  else
    unregister_list F fuel ((st.clients.filter (fun c => c != sender)).filter F)
      (deliver F m (st.clients.filter (fun c => c != sender)) st)

/-- `BroadcastServer.register_client` (src/broadcast-server.py lines 25-45):
add the handle to `self.clients` (a set: adding a present handle is a
no-op), build the welcome envelope with the *updated* count, send it to the
new handle alone — this send is *not* guarded by a try/except, so if it
fails the exception propagates to the caller, which the `Bool` component
records (`true` = raised) — then build the join notification with the same
updated count and `broadcast_to_others` it. -/
def register_client (F : Nat → Bool) (fuel : Nat) (ws : Nat)
    (st : ServerState) : ServerState × Bool :=
  let clients1 := if ws ∈ st.clients then st.clients else ws :: st.clients
  let n := clients1.length
  let w := welcome_env n st.clock
  let stW := attempt F w ws { st with clients := clients1, clock := st.clock + 1 }
  if F ws then (stW, true)
  else
    let j := join_env n stW.clock
    (broadcast_to_others F fuel j ws { stW with clock := stW.clock + 1 }, false)

/-- The envelope `handle_client` builds from an inbound chat message
(src/broadcast-server.py lines 115-120): fresh hub timestamp,
`data.get("message", "")` and `data.get("sender", "Anonymous")` — the
defaults apply exactly when the field is missing. -/
def mk_broadcast_msg (d : JsonData) (ts : Nat) : Envelope :=
  ⟨"message", d.message.getD "", some (d.sender.getD "Anonymous"), ts⟩

/-- One iteration of `handle_client`'s message loop
(src/broadcast-server.py lines 108-131).  `none` stands for a raw message
on which `json.loads` raised `JSONDecodeError` (or any other in-body
exception, line 130): it is logged and discarded, the loop continues.
A parsed object is broadcast (hub-stamped) only when its `type` field is
the string `"message"`; any other inbound object is ignored. -/
def process_inbound (F : Nat → Bool) (fuel : Nat) (i : Option JsonData)
    (st : ServerState) : ServerState :=
  match i with
  | none => st
  | some d =>
    if d.type = some "message" then
      broadcast_to_all F fuel (mk_broadcast_msg d st.clock)
        { st with clock := st.clock + 1 }
    else st

/-- The `async for` loop of `handle_client` over the finite sequence of
inbound items received before the connection ended. -/
def process_loop (F : Nat → Bool) (fuel : Nat) :
    List (Option JsonData) → ServerState → ServerState
  | [], st => st
  | i :: rest, st => process_loop F fuel rest (process_inbound F fuel i st)

/-- `BroadcastServer.handle_client` (src/broadcast-server.py lines 103-138):
`register_client` runs first, *outside* the try/finally; if its welcome
send raises, `handle_client` itself raises (result flag `true`) and the
`finally` block never runs.  Otherwise the message loop runs to the end of
the stream — however the stream ends (clean close, ConnectionClosed/
ConnectionResetError, or any other exception, lines 133-136) — and the
`finally` block unregisters the handle exactly once. -/
def handle_client (F : Nat → Bool) (fuel : Nat) (ws : Nat)
    (ins : List (Option JsonData)) (st : ServerState) : ServerState × Bool :=
  let r := register_client F fuel ws st
  if r.2 then (r.1, true)
  else (unregister_client F fuel ws (process_loop F fuel ins r.1), false)

/-- An external call to the registry: `register_client` or
`unregister_client` (the two mutation entry points of the source). -/
inductive RegOp where
  | reg (c : Nat)
  | unreg (c : Nat)
deriving DecidableEq

/-- Apply one external registry call. -/
def apply_op (F : Nat → Bool) (fuel : Nat) (st : ServerState) (op : RegOp) :
    ServerState :=
  match op with
  | RegOp.reg c => (register_client F fuel c st).1
  | RegOp.unreg c => unregister_client F fuel c st

/-- Apply a finite sequence of external registry calls. -/
def apply_ops (F : Nat → Bool) (fuel : Nat) (ops : List RegOp)
    (st : ServerState) : ServerState :=
  ops.foldl (apply_op F fuel) st

/-- The set of handles currently registered and not since unregistered,
computed from the external call sequence alone (the reference model the
registry size is compared against). -/
def live_step (s : Finset Nat) (op : RegOp) : Finset Nat :=
  match op with
  | RegOp.reg c => insert c s
  | RegOp.unreg c => s.erase c

/-- The live set after a sequence of external registry calls, starting
from the empty registry. -/
def live_set (ops : List RegOp) : Finset Nat :=
  ops.foldl live_step ∅

-- Sanity unfolding lemmas (definitional).

lemma broadcast_to_all_zero (F : Nat → Bool) (m : Envelope) (st : ServerState) :
    broadcast_to_all F 0 m st = st := rfl

lemma broadcast_to_all_succ (F : Nat → Bool) (fuel : Nat) (m : Envelope)
    (st : ServerState) :
    broadcast_to_all F (fuel + 1) m st =
      if st.clients.isEmpty then st
      else
        unregister_list F fuel (st.clients.filter F)
          (deliver F m st.clients st) := rfl

lemma unregister_list_nil (F : Nat → Bool) (fuel : Nat) (st : ServerState) :
    unregister_list F fuel [] st = st := rfl

lemma unregister_list_cons (F : Nat → Bool) (fuel : Nat) (c : Nat)
    (cs : List Nat) (st : ServerState) :
    unregister_list F fuel (c :: cs) st =
      unregister_list F fuel cs (unregister_client F fuel c st) := rfl

-- ### Properties of one delivery pass (`attempt` / `deliver`)

lemma attempt_clients (F : Nat → Bool) (m : Envelope) (c : Nat)
    (st : ServerState) : (attempt F m c st).clients = st.clients := rfl

lemma attempt_clock (F : Nat → Bool) (m : Envelope) (c : Nat)
    (st : ServerState) : (attempt F m c st).clock = st.clock := rfl

lemma attempt_log (F : Nat → Bool) (m : Envelope) (c : Nat)
    (st : ServerState) : (attempt F m c st).log = st.log ++ [(c, m)] := rfl

lemma attempt_inbox_self (F : Nat → Bool) (m : Envelope) (c : Nat)
    (st : ServerState) (h : F c = false) :
    (attempt F m c st).inbox c = st.inbox c ++ [m] := by
  simp [attempt, h]

lemma attempt_inbox_ne (F : Nat → Bool) (m : Envelope) (c x : Nat)
    (st : ServerState) (h : x ≠ c) :
    (attempt F m c st).inbox x = st.inbox x := by
  by_cases hf : F c <;> simp [attempt, hf, h]

lemma attempt_inbox_of_fails (F : Nat → Bool) (m : Envelope) (c : Nat)
    (st : ServerState) (h : F c = true) :
    (attempt F m c st).inbox = st.inbox := by
  simp [attempt, h]

lemma deliver_clients (F : Nat → Bool) (m : Envelope) :
    ∀ (ts : List Nat) (st : ServerState),
      (deliver F m ts st).clients = st.clients := by
  intro ts
  induction ts with
  | nil => intro st; rfl
  | cons c cs ih => intro st; rw [deliver, ih, attempt_clients]

lemma deliver_clock (F : Nat → Bool) (m : Envelope) :
    ∀ (ts : List Nat) (st : ServerState),
      (deliver F m ts st).clock = st.clock := by
  intro ts
  induction ts with
  | nil => intro st; rfl
  | cons c cs ih => intro st; rw [deliver, ih, attempt_clock]

lemma deliver_log (F : Nat → Bool) (m : Envelope) :
    ∀ (ts : List Nat) (st : ServerState),
      (deliver F m ts st).log = st.log ++ ts.map (fun c => (c, m)) := by
  intro ts
  induction ts with
  | nil => intro st; simp [deliver]
  | cons c cs ih => intro st; rw [deliver, ih, attempt_log]; simp

lemma deliver_inbox_ext (F : Nat → Bool) (m : Envelope) :
    ∀ (ts : List Nat) (st : ServerState) (x : Nat),
      ∃ t, (deliver F m ts st).inbox x = st.inbox x ++ t ∧ ∀ e ∈ t, e = m := by
  intro ts
  induction ts with
  | nil => intro st x; exact ⟨[], by simp [deliver]⟩
  | cons c cs ih =>
    intro st x
    obtain ⟨t, ht, hall⟩ := ih (attempt F m c st) x
    by_cases hx : x = c
    · subst hx
      by_cases hf : F x
      · rw [deliver, ht, attempt_inbox_of_fails F m x st hf]
        exact ⟨t, rfl, hall⟩
      · rw [deliver, ht, attempt_inbox_self F m x st (by simpa using hf)]
        refine ⟨[m] ++ t, by simp, ?_⟩
        intro e he
        rcases List.mem_append.mp he with h1 | h2
        · simpa using h1
        · exact hall e h2
    · rw [deliver, ht, attempt_inbox_ne F m c x st hx]
      exact ⟨t, rfl, hall⟩

lemma deliver_inbox_not_mem (F : Nat → Bool) (m : Envelope) :
    ∀ (ts : List Nat) (st : ServerState) (x : Nat), x ∉ ts →
      (deliver F m ts st).inbox x = st.inbox x := by
  intro ts
  induction ts with
  | nil => intro st x _; rfl
  | cons c cs ih =>
    intro st x hx
    rw [deliver, ih _ x (fun h => hx (List.mem_cons_of_mem _ h)),
      attempt_inbox_ne F m c x st (fun h => hx (h ▸ List.mem_cons_self _ _))]

lemma deliver_inbox_mem_nodup (F : Nat → Bool) (m : Envelope) :
    ∀ (ts : List Nat) (st : ServerState) (x : Nat), ts.Nodup → x ∈ ts →
      F x = false → (deliver F m ts st).inbox x = st.inbox x ++ [m] := by
  intro ts
  induction ts with
  | nil => intro st x _ hx; exact absurd hx (List.not_mem_nil x)
  | cons c cs ih =>
    intro st x hnd hx hf
    rcases List.mem_cons.mp hx with h1 | h2
    · subst h1
      rw [deliver,
        deliver_inbox_not_mem F m cs _ x (List.nodup_cons.mp hnd).1,
        attempt_inbox_self F m x st hf]
    · rw [deliver, ih _ x (List.nodup_cons.mp hnd).2 h2 hf,
        attempt_inbox_ne F m c x st
          (fun h => (List.nodup_cons.mp hnd).1 (h ▸ h2))]

lemma deliver_inbox_mem (F : Nat → Bool) (m : Envelope) :
    ∀ (ts : List Nat) (st : ServerState) (x : Nat), x ∈ ts → F x = false →
      m ∈ (deliver F m ts st).inbox x := by
  intro ts
  induction ts with
  | nil => intro st x hx; exact absurd hx (List.not_mem_nil x)
  | cons c cs ih =>
    intro st x hx hf
    by_cases h2 : x ∈ cs
    · exact ih _ x h2 hf
    · have hxc : x = c := by
        rcases List.mem_cons.mp hx with h1 | h1
        · exact h1
        · exact absurd h1 h2
      subst hxc
      obtain ⟨t, ht, _⟩ := deliver_inbox_ext F m cs (attempt F m x st) x
      rw [deliver, ht, attempt_inbox_self F m x st hf]
      simp

-- ### Monotone state extension: a broadcast pass only shrinks the registry,
-- only appends to inboxes and to the attempt log.

/-- `StExt a b`: state `b` extends state `a` — the registry shrank (sublist)
and inboxes and the attempt log only grew. -/
def StExt (a b : ServerState) : Prop :=
  b.clients.Sublist a.clients ∧ (∀ x, ∃ t, b.inbox x = a.inbox x ++ t) ∧
    ∃ t, b.log = a.log ++ t

lemma StExt_refl (a : ServerState) : StExt a a :=
  ⟨List.Sublist.refl _, fun _ => ⟨[], by simp⟩, ⟨[], by simp⟩⟩

lemma StExt_trans {a b c : ServerState} (h1 : StExt a b) (h2 : StExt b c) :
    StExt a c := by
  obtain ⟨hc1, hi1, t1, hl1⟩ := h1
  obtain ⟨hc2, hi2, t2, hl2⟩ := h2
  refine ⟨hc2.trans hc1, fun x => ?_, ⟨t1 ++ t2, by rw [hl2, hl1, List.append_assoc]⟩⟩
  obtain ⟨u1, hu1⟩ := hi1 x
  obtain ⟨u2, hu2⟩ := hi2 x
  exact ⟨u1 ++ u2, by rw [hu2, hu1, List.append_assoc]⟩

lemma deliver_stExt (F : Nat → Bool) (m : Envelope) (ts : List Nat)
    (st : ServerState) : StExt st (deliver F m ts st) := by
  refine ⟨by rw [deliver_clients], fun x => ?_, ⟨_, deliver_log F m ts st⟩⟩
  obtain ⟨t, ht, _⟩ := deliver_inbox_ext F m ts st x
  exact ⟨t, ht⟩

lemma reapOne_stExt (rec : Envelope → ServerState → ServerState)
    (hrec : ∀ m s, StExt s (rec m s)) (c : Nat) (st : ServerState) :
    StExt st (reapOne rec c st) := by
  rw [reapOne]
  by_cases hc : c ∈ st.clients
  · rw [if_pos hc]
    have hmid : ∀ k : Nat, StExt st
        { st with clients := st.clients.erase c, clock := k } :=
      fun k => ⟨List.erase_sublist c st.clients, fun x => ⟨[], by simp⟩, ⟨[], by simp⟩⟩
    by_cases he : (st.clients.erase c).isEmpty
    · rw [if_pos he]
      exact ⟨List.erase_sublist c st.clients, fun x => ⟨[], by simp⟩, ⟨[], by simp⟩⟩
    · rw [if_neg he]
      exact StExt_trans (hmid (st.clock + 1)) (hrec _ _)
  · rw [if_neg hc]
    exact StExt_refl st

lemma reapList_stExt (rec : Envelope → ServerState → ServerState)
    (hrec : ∀ m s, StExt s (rec m s)) (cs : List Nat) (st : ServerState) :
    StExt st (reapList rec cs st) := by
  induction cs generalizing st with
  | nil => exact StExt_refl st
  | cons c cs ih =>
    exact StExt_trans (reapOne_stExt rec hrec c st) (ih _)

lemma broadcast_to_all_stExt (F : Nat → Bool) : ∀ (fuel : Nat) (m : Envelope)
    (st : ServerState), StExt st (broadcast_to_all F fuel m st) := by
  intro fuel
  induction fuel with
  | zero => intro m st; exact StExt_refl st
  | succ n ih =>
    intro m st
    rw [broadcast_to_all_succ]
    by_cases he : st.clients.isEmpty
    · rw [if_pos he]; exact StExt_refl st
    · rw [if_neg he]
      exact StExt_trans (deliver_stExt F m st.clients st)
        (reapList_stExt _ ih _ _)

lemma unregister_client_stExt (F : Nat → Bool) (fuel : Nat) (c : Nat)
    (st : ServerState) : StExt st (unregister_client F fuel c st) :=
  reapOne_stExt _ (broadcast_to_all_stExt F fuel) c st

lemma unregister_list_stExt (F : Nat → Bool) (fuel : Nat) (cs : List Nat)
    (st : ServerState) : StExt st (unregister_list F fuel cs st) :=
  reapList_stExt _ (broadcast_to_all_stExt F fuel) cs st

-- ### Inbox extensions produced by the reap phase are system envelopes

/-- `SysInboxExt a b`: every inbox in `b` extends the one in `a`, and every
newly delivered envelope is a `"system"` envelope. -/
def SysInboxExt (a b : ServerState) : Prop :=
  ∀ x, ∃ t, b.inbox x = a.inbox x ++ t ∧ ∀ e ∈ t, e.type = "system"

lemma SysInboxExt_refl (a : ServerState) : SysInboxExt a a :=
  fun _ => ⟨[], by simp⟩

lemma SysInboxExt_trans {a b c : ServerState} (h1 : SysInboxExt a b)
    (h2 : SysInboxExt b c) : SysInboxExt a c := by
  intro x
  obtain ⟨t1, ht1, ha1⟩ := h1 x
  obtain ⟨t2, ht2, ha2⟩ := h2 x
  refine ⟨t1 ++ t2, by rw [ht2, ht1, List.append_assoc], ?_⟩
  intro e he
  rcases List.mem_append.mp he with h | h
  · exact ha1 e h
  · exact ha2 e h

lemma leave_env_type (n t : Nat) : (leave_env n t).type = "system" := rfl

lemma deliver_sysInboxExt (F : Nat → Bool) (m : Envelope)
    (hm : m.type = "system") (ts : List Nat) (st : ServerState) :
    SysInboxExt st (deliver F m ts st) := by
  intro x
  obtain ⟨t, ht, hall⟩ := deliver_inbox_ext F m ts st x
  exact ⟨t, ht, fun e he => (hall e he) ▸ hm⟩

lemma reapOne_sysInboxExt (rec : Envelope → ServerState → ServerState)
    (hrec : ∀ m s, m.type = "system" → SysInboxExt s (rec m s)) (c : Nat)
    (st : ServerState) : SysInboxExt st (reapOne rec c st) := by
  rw [reapOne]
  by_cases hc : c ∈ st.clients
  · rw [if_pos hc]
    by_cases he : (st.clients.erase c).isEmpty
    · rw [if_pos he]
      exact fun x => ⟨[], by simp⟩
    · rw [if_neg he]
      exact hrec _ _ (leave_env_type _ _)
  · rw [if_neg hc]
    exact SysInboxExt_refl st

lemma reapList_sysInboxExt (rec : Envelope → ServerState → ServerState)
    (hrec : ∀ m s, m.type = "system" → SysInboxExt s (rec m s)) (cs : List Nat)
    (st : ServerState) : SysInboxExt st (reapList rec cs st) := by
  induction cs generalizing st with
  | nil => exact SysInboxExt_refl st
  | cons c cs ih =>
    exact SysInboxExt_trans (reapOne_sysInboxExt rec hrec c st) (ih _)

lemma broadcast_to_all_sysInboxExt (F : Nat → Bool) : ∀ (fuel : Nat)
    (m : Envelope) (st : ServerState), m.type = "system" →
    SysInboxExt st (broadcast_to_all F fuel m st) := by
  intro fuel
  induction fuel with
  | zero => intro m st _; exact SysInboxExt_refl st
  | succ n ih =>
    intro m st hm
    rw [broadcast_to_all_succ]
    by_cases he : st.clients.isEmpty
    · rw [if_pos he]; exact SysInboxExt_refl st
    · rw [if_neg he]
      exact SysInboxExt_trans (deliver_sysInboxExt F m hm st.clients st)
        (reapList_sysInboxExt _ ih _ _)

lemma unregister_list_sysInboxExt (F : Nat → Bool) (fuel : Nat)
    (cs : List Nat) (st : ServerState) :
    SysInboxExt st (unregister_list F fuel cs st) :=
  reapList_sysInboxExt _ (broadcast_to_all_sysInboxExt F fuel) cs st

lemma unregister_client_sysInboxExt (F : Nat → Bool) (fuel : Nat)
    (c : Nat) (st : ServerState) :
    SysInboxExt st (unregister_client F fuel c st) :=
  reapOne_sysInboxExt _ (broadcast_to_all_sysInboxExt F fuel) c st

-- ### Exact registry contents after a broadcast pass: the pass (and its
-- nested reap cascade) removes exactly the failing members.

lemma unregister_client_not_mem (F : Nat → Bool) (fuel : Nat) (c : Nat)
    (st : ServerState) (h : c ∉ st.clients) :
    unregister_client F fuel c st = st := by
  rw [unregister_client, reapOne, if_neg h]

lemma filter_erase_of_fails (F : Nat → Bool) (c : Nat) (hc : F c = true) :
    ∀ l : List Nat,
      (l.erase c).filter (fun x => !(F x)) = l.filter (fun x => !(F x)) := by
  intro l
  induction l with
  | nil => rfl
  | cons a l ih =>
    by_cases hac : a = c
    · subst hac
      simp [List.erase_cons, List.filter_cons, hc]
    · have hbeq : (a == c) = false := by simpa using hac
      simp only [List.erase_cons, hbeq, Bool.false_eq_true, if_neg,
        not_false_iff, List.filter_cons]
      by_cases hfa : F a
      · simp [hfa, ih]
      · simp [hfa, ih]

lemma reap_char (F : Nat → Bool) : ∀ fuel : Nat,
    (∀ (m : Envelope) (st : ServerState), st.clients.Nodup →
      st.clients.length < fuel →
      (broadcast_to_all F fuel m st).clients
        = st.clients.filter (fun c => !(F c))) ∧
    (∀ (c : Nat) (st : ServerState), st.clients.Nodup →
      st.clients.length ≤ fuel → c ∈ st.clients →
      (unregister_client F fuel c st).clients
        = (st.clients.erase c).filter (fun x => !(F x))) ∧
    (∀ (cs : List Nat) (st : ServerState), st.clients.Nodup →
      st.clients.length ≤ fuel →
      (∀ c ∈ st.clients, F c = true → c ∈ cs) → (∀ c ∈ cs, F c = true) →
      (unregister_list F fuel cs st).clients
        = st.clients.filter (fun c => !(F c))) := by
  have h21 : ∀ fuel : Nat,
      (∀ (m : Envelope) (st : ServerState), st.clients.Nodup →
        st.clients.length < fuel →
        (broadcast_to_all F fuel m st).clients
          = st.clients.filter (fun c => !(F c))) →
      ∀ (c : Nat) (st : ServerState), st.clients.Nodup →
        st.clients.length ≤ fuel → c ∈ st.clients →
        (unregister_client F fuel c st).clients
          = (st.clients.erase c).filter (fun x => !(F x)) := by
    intro fuel h1 c st hnd hlen hc
    rw [unregister_client, reapOne, if_pos hc]
    by_cases he : (st.clients.erase c).isEmpty
    · rw [if_pos he]
      have : st.clients.erase c = [] := List.isEmpty_iff.mp he
      simp [this]
    · rw [if_neg he]
      have hpos : 0 < st.clients.length := List.length_pos_of_mem hc
      have hlene : (st.clients.erase c).length = st.clients.length - 1 :=
        List.length_erase_of_mem hc
      refine h1 _ _ (hnd.erase c) ?_
      show (st.clients.erase c).length < fuel
      omega
  have h32 : ∀ fuel : Nat,
      (∀ (c : Nat) (st : ServerState), st.clients.Nodup →
        st.clients.length ≤ fuel → c ∈ st.clients →
        (unregister_client F fuel c st).clients
          = (st.clients.erase c).filter (fun x => !(F x))) →
      ∀ (cs : List Nat) (st : ServerState), st.clients.Nodup →
        st.clients.length ≤ fuel →
        (∀ c ∈ st.clients, F c = true → c ∈ cs) → (∀ c ∈ cs, F c = true) →
        (unregister_list F fuel cs st).clients
          = st.clients.filter (fun c => !(F c)) := by
    intro fuel h2 cs
    induction cs with
    | nil =>
      intro st _ _ hmem _
      rw [unregister_list_nil]
      refine (List.filter_eq_self.mpr ?_).symm
      intro a ha
      by_cases hfa : F a
      · exact absurd (hmem a ha hfa) (List.not_mem_nil a)
      · simpa using hfa
    | cons c cs ih =>
      intro st hnd hlen hmem hall
      rw [unregister_list_cons]
      by_cases hc : c ∈ st.clients
      · have hFc : F c = true := hall c (List.mem_cons_self c cs)
        have h2c := h2 c st hnd hlen hc
        have hnd2 : (unregister_client F fuel c st).clients.Nodup := by
          rw [h2c]; exact (hnd.erase c).filter _
        have hlen2 : (unregister_client F fuel c st).clients.length ≤ fuel := by
          rw [h2c]
          calc ((st.clients.erase c).filter (fun x => !(F x))).length
              ≤ (st.clients.erase c).length := List.length_filter_le _ _
            _ ≤ st.clients.length := (List.erase_sublist c st.clients).length_le
            _ ≤ fuel := hlen
        have hmem2 : ∀ x ∈ (unregister_client F fuel c st).clients,
            F x = true → x ∈ cs := by
          intro x hx hfx
          rw [h2c] at hx
          have := (List.mem_filter.mp hx).2
          simp [hfx] at this
        have := ih (unregister_client F fuel c st) hnd2 hlen2 hmem2
          (fun x hx => hall x (List.mem_cons_of_mem c hx))
        rw [this, h2c]
        rw [List.filter_eq_self.mpr
          (fun a ha => (List.mem_filter.mp ha).2)]
        exact filter_erase_of_fails F c hFc st.clients
      · rw [unregister_client_not_mem F fuel c st hc]
        refine ih st hnd hlen ?_ (fun x hx => hall x (List.mem_cons_of_mem c hx))
        intro x hx hfx
        rcases List.mem_cons.mp (hmem x hx hfx) with h | h
        · exact absurd (h ▸ hx) hc
        · exact h
  intro fuel
  induction fuel with
  | zero =>
    have h1 : ∀ (m : Envelope) (st : ServerState), st.clients.Nodup →
        st.clients.length < 0 →
        (broadcast_to_all F 0 m st).clients
          = st.clients.filter (fun c => !(F c)) := by
      intro m st _ hlen
      exact absurd hlen (Nat.not_lt_zero _)
    exact ⟨h1, h21 0 h1, h32 0 (h21 0 h1)⟩
  | succ n ih =>
    have h1 : ∀ (m : Envelope) (st : ServerState), st.clients.Nodup →
        st.clients.length < n + 1 →
        (broadcast_to_all F (n + 1) m st).clients
          = st.clients.filter (fun c => !(F c)) := by
      intro m st hnd hlen
      rw [broadcast_to_all_succ]
      by_cases he : st.clients.isEmpty
      · rw [if_pos he]
        have : st.clients = [] := List.isEmpty_iff.mp he
        simp [this]
      · rw [if_neg he]
        have hdc : (deliver F m st.clients st).clients = st.clients :=
          deliver_clients F m st.clients st
        have := ih.2.2 (st.clients.filter F) (deliver F m st.clients st)
          (by rw [hdc]; exact hnd) (by rw [hdc]; omega)
          (by rw [hdc]; intro c hc hfc; exact List.mem_filter.mpr ⟨hc, hfc⟩)
          (fun c hc => (List.mem_filter.mp hc).2)
        rw [this, hdc]
    exact ⟨h1, h21 (n + 1) h1, h32 (n + 1) (h21 (n + 1) h1)⟩

lemma broadcast_to_all_clients (F : Nat → Bool) (fuel : Nat) (m : Envelope)
    (st : ServerState) (hnd : st.clients.Nodup)
    (hlen : st.clients.length < fuel) :
    (broadcast_to_all F fuel m st).clients
      = st.clients.filter (fun c => !(F c)) :=
  (reap_char F fuel).1 m st hnd hlen

lemma unregister_list_reap (F : Nat → Bool) (fuel : Nat) (cs : List Nat)
    (st : ServerState) (hnd : st.clients.Nodup)
    (hlen : st.clients.length ≤ fuel)
    (hmem : ∀ c ∈ st.clients, F c = true → c ∈ cs)
    (hall : ∀ c ∈ cs, F c = true) :
    (unregister_list F fuel cs st).clients
      = st.clients.filter (fun c => !(F c)) :=
  (reap_char F fuel).2.2 cs st hnd hlen hmem hall

-- ### Delivery and removal behaviour of `broadcast_to_others`

lemma broadcast_to_others_clients (F : Nat → Bool) (fuel : Nat) (m : Envelope)
    (s : Nat) (st : ServerState) (hnd : st.clients.Nodup)
    (hlen : st.clients.length ≤ fuel)
    (hs : F s = false ∨ s ∉ st.clients) :
    (broadcast_to_others F fuel m s st).clients
      = st.clients.filter (fun c => !(F c)) := by
  rw [broadcast_to_others]
  by_cases he : st.clients.isEmpty
  · rw [if_pos he]
    have h0 : st.clients = [] := List.isEmpty_iff.mp he
    simp [h0]
  · rw [if_neg he]
    have hdc : (deliver F m (st.clients.filter (fun c => c != s)) st).clients
        = st.clients := deliver_clients F m _ st
    rw [unregister_list_reap F fuel _ _ (by rw [hdc]; exact hnd)
      (by rw [hdc]; exact hlen) ?_ (fun c hc => (List.mem_filter.mp hc).2), hdc]
    rw [hdc]
    intro c hc hfc
    refine List.mem_filter.mpr ⟨List.mem_filter.mpr ⟨hc, ?_⟩, hfc⟩
    refine bne_iff_ne.mpr ?_
    intro hcs
    rcases hs with h | h
    · rw [hcs, h] at hfc; exact Bool.false_ne_true hfc
    · exact h (hcs ▸ hc)

lemma broadcast_to_others_not_sender (F : Nat → Bool) (fuel : Nat)
    (m : Envelope) (s : Nat) (st : ServerState) (hm : m.type = "message")
    (hni : m ∉ st.inbox s) :
    m ∉ (broadcast_to_others F fuel m s st).inbox s := by
  rw [broadcast_to_others]
  by_cases he : st.clients.isEmpty
  · rw [if_pos he]; exact hni
  · rw [if_neg he]
    have hsn : s ∉ st.clients.filter (fun c => c != s) := by
      intro h
      exact absurd (bne_iff_ne.mp (List.mem_filter.mp h).2) (fun h2 => h2 rfl)
    have hdel : (deliver F m (st.clients.filter (fun c => c != s)) st).inbox s
        = st.inbox s := deliver_inbox_not_mem F m _ st s hsn
    obtain ⟨t, ht, hsys⟩ := unregister_list_sysInboxExt F fuel
      ((st.clients.filter (fun c => c != s)).filter F)
      (deliver F m (st.clients.filter (fun c => c != s)) st) s
    rw [ht, hdel]
    intro hmem
    rcases List.mem_append.mp hmem with h | h
    · exact hni h
    · have := hsys m h
      rw [hm] at this
      exact absurd this (by decide)

lemma broadcast_to_others_delivers (F : Nat → Bool) (fuel : Nat)
    (m : Envelope) (s : Nat) (st : ServerState) (c : Nat)
    (hnd : st.clients.Nodup) (hc : c ∈ st.clients) (hcs : c ≠ s)
    (hf : F c = false) :
    ∃ t, (broadcast_to_others F fuel m s st).inbox c
      = st.inbox c ++ [m] ++ t := by
  rw [broadcast_to_others]
  have hcne : st.clients ≠ [] := fun h0 => (List.not_mem_nil c) (h0 ▸ hc)
  have he : ¬ st.clients.isEmpty := fun h => hcne (List.isEmpty_iff.mp h)
  rw [if_neg he]
  have hct : c ∈ st.clients.filter (fun x => x != s) :=
    List.mem_filter.mpr ⟨hc, bne_iff_ne.mpr hcs⟩
  have hdel : (deliver F m (st.clients.filter (fun x => x != s)) st).inbox c
      = st.inbox c ++ [m] :=
    deliver_inbox_mem_nodup F m _ st c (hnd.filter _) hct hf
  obtain ⟨t, ht, _⟩ := unregister_list_sysInboxExt F fuel
    ((st.clients.filter (fun x => x != s)).filter F)
    (deliver F m (st.clients.filter (fun x => x != s)) st) c
  exact ⟨t, by rw [ht, hdel]⟩

lemma broadcast_to_all_inbox (F : Nat → Bool) (fuel : Nat) (m : Envelope)
    (st : ServerState) (c : Nat) (hnd : st.clients.Nodup)
    (hfuel : 0 < fuel) (hc : c ∈ st.clients) (hf : F c = false) :
    ∃ t, (broadcast_to_all F fuel m st).inbox c = st.inbox c ++ [m] ++ t := by
  cases fuel with
  | zero => exact absurd hfuel (by omega)
  | succ n =>
    rw [broadcast_to_all_succ]
    have hcne : st.clients ≠ [] := fun h0 => (List.not_mem_nil c) (h0 ▸ hc)
    have he : ¬ st.clients.isEmpty := fun h => hcne (List.isEmpty_iff.mp h)
    rw [if_neg he]
    have hdel : (deliver F m st.clients st).inbox c = st.inbox c ++ [m] :=
      deliver_inbox_mem_nodup F m st.clients st c hnd hc hf
    obtain ⟨t, ht, _⟩ := unregister_list_sysInboxExt F n
      (st.clients.filter F) (deliver F m st.clients st) c
    exact ⟨t, by rw [ht, hdel]⟩

-- ### When no send fails, broadcasts leave the registry untouched

lemma filter_eq_nil_of_nf (F : Nat → Bool) (hnf : ∀ c, F c = false) :
    ∀ l : List Nat, l.filter F = [] := by
  intro l
  induction l with
  | nil => rfl
  | cons a l ih => simp [List.filter_cons, hnf a, ih]

lemma nf_broadcast_to_all_clients (F : Nat → Bool) (hnf : ∀ c, F c = false)
    (fuel : Nat) (m : Envelope) (st : ServerState) :
    (broadcast_to_all F fuel m st).clients = st.clients := by
  cases fuel with
  | zero => rfl
  | succ n =>
    rw [broadcast_to_all_succ]
    by_cases he : st.clients.isEmpty
    · rw [if_pos he]
    · rw [if_neg he, filter_eq_nil_of_nf F hnf, unregister_list_nil,
        deliver_clients]

lemma nf_unregister_client_clients (F : Nat → Bool) (hnf : ∀ c, F c = false)
    (fuel : Nat) (c : Nat) (st : ServerState) :
    (unregister_client F fuel c st).clients = st.clients.erase c := by
  rw [unregister_client, reapOne]
  by_cases hc : c ∈ st.clients
  · rw [if_pos hc]
    by_cases he : (st.clients.erase c).isEmpty
    · rw [if_pos he]
    · rw [if_neg he, nf_broadcast_to_all_clients F hnf]
  · rw [if_neg hc, List.erase_of_not_mem hc]

lemma nf_broadcast_to_others_clients (F : Nat → Bool) (hnf : ∀ c, F c = false)
    (fuel : Nat) (m : Envelope) (s : Nat) (st : ServerState) :
    (broadcast_to_others F fuel m s st).clients = st.clients := by
  rw [broadcast_to_others]
  by_cases he : st.clients.isEmpty
  · rw [if_pos he]
  · rw [if_neg he, filter_eq_nil_of_nf F hnf, unregister_list_nil,
      deliver_clients]

lemma register_client_snd (F : Nat → Bool) (fuel : Nat) (ws : Nat)
    (st : ServerState) : (register_client F fuel ws st).2 = F ws := by
  by_cases hw : F ws <;> simp [register_client, hw]

lemma nf_register_client_clients (F : Nat → Bool) (hnf : ∀ c, F c = false)
    (fuel : Nat) (ws : Nat) (st : ServerState) :
    ((register_client F fuel ws st).1).clients
      = if ws ∈ st.clients then st.clients else ws :: st.clients := by
  have hw : F ws = false := hnf ws
  simp only [register_client, hw, Bool.false_eq_true, if_false]
  rw [nf_broadcast_to_others_clients F hnf]
  rfl

-- ### The registry under sequences of external register/unregister calls

lemma apply_op_reg (F : Nat → Bool) (fuel : Nat) (st : ServerState) (c : Nat) :
    apply_op F fuel st (RegOp.reg c) = (register_client F fuel c st).1 := rfl

lemma apply_op_unreg (F : Nat → Bool) (fuel : Nat) (st : ServerState)
    (c : Nat) :
    apply_op F fuel st (RegOp.unreg c) = unregister_client F fuel c st := rfl

lemma apply_ops_nil (F : Nat → Bool) (fuel : Nat) (st : ServerState) :
    apply_ops F fuel [] st = st := rfl

lemma apply_ops_cons (F : Nat → Bool) (fuel : Nat) (op : RegOp)
    (ops : List RegOp) (st : ServerState) :
    apply_ops F fuel (op :: ops) st
      = apply_ops F fuel ops (apply_op F fuel st op) := rfl

lemma toFinset_erase_of_nodup (l : List Nat) (c : Nat) (hnd : l.Nodup) :
    (l.erase c).toFinset = l.toFinset.erase c := by
  ext x
  simp [List.mem_toFinset, Finset.mem_erase, hnd.mem_erase_iff]

lemma apply_ops_invariant (F : Nat → Bool) (fuel : Nat)
    (hnf : ∀ c, F c = false) :
    ∀ (ops : List RegOp) (st : ServerState), st.clients.Nodup →
      (apply_ops F fuel ops st).clients.Nodup ∧
      (apply_ops F fuel ops st).clients.toFinset
        = ops.foldl live_step st.clients.toFinset := by
  intro ops
  induction ops with
  | nil => intro st h; exact ⟨h, rfl⟩
  | cons op ops ih =>
    intro st hnd
    have hstep : (apply_op F fuel st op).clients.Nodup ∧
        (apply_op F fuel st op).clients.toFinset
          = live_step st.clients.toFinset op := by
      cases op with
      | reg c =>
        rw [apply_op_reg, nf_register_client_clients F hnf fuel c st]
        by_cases hc : c ∈ st.clients
        · rw [if_pos hc]
          exact ⟨hnd,
            (Finset.insert_eq_self.mpr (List.mem_toFinset.mpr hc)).symm⟩
        · rw [if_neg hc]
          exact ⟨List.nodup_cons.mpr ⟨hc, hnd⟩, List.toFinset_cons⟩
      | unreg c =>
        rw [apply_op_unreg, nf_unregister_client_clients F hnf fuel c st]
        exact ⟨hnd.erase c, toFinset_erase_of_nodup st.clients c hnd⟩
    rw [apply_ops_cons]
    obtain ⟨h1, h2⟩ := ih (apply_op F fuel st op) hstep.1
    exact ⟨h1, by rw [h2, hstep.2, List.foldl_cons]⟩

-- ### The message loop and the attempt log of `handle_client`

lemma process_inbound_stExt (F : Nat → Bool) (fuel : Nat)
    (i : Option JsonData) (st : ServerState) :
    StExt st (process_inbound F fuel i st) := by
  cases i with
  | none => exact StExt_refl st
  | some d =>
    rw [process_inbound]
    by_cases ht : d.type = some "message"
    · rw [if_pos ht]
      have hmid : StExt st { st with clock := st.clock + 1 } :=
        ⟨List.Sublist.refl _, fun x => ⟨[], by simp⟩, ⟨[], by simp⟩⟩
      exact StExt_trans hmid (broadcast_to_all_stExt F fuel _ _)
    · rw [if_neg ht]
      exact StExt_refl st

lemma process_loop_stExt (F : Nat → Bool) (fuel : Nat) :
    ∀ (ins : List (Option JsonData)) (st : ServerState),
      StExt st (process_loop F fuel ins st) := by
  intro ins
  induction ins with
  | nil => intro st; exact StExt_refl st
  | cons i rest ih =>
    intro st
    rw [process_loop]
    exact StExt_trans (process_inbound_stExt F fuel i st) (ih _)

lemma filter_ne_of_not_mem (ws : Nat) (l : List Nat) (h : ws ∉ l) :
    l.filter (fun c => c != ws) = l := by
  refine List.filter_eq_self.mpr ?_
  intro a ha
  exact bne_iff_ne.mpr (fun hx => h (hx ▸ ha))

/-- Unfolding `register_client` when the welcome send succeeds. -/
lemma register_client_ok (F : Nat → Bool) (fuel : Nat) (ws : Nat)
    (st : ServerState) (hw : F ws = false) :
    register_client F fuel ws st =
      (broadcast_to_others F fuel
        (join_env (if ws ∈ st.clients then st.clients else ws :: st.clients).length
          (st.clock + 1))
        ws
        { attempt F
            (welcome_env
              (if ws ∈ st.clients then st.clients else ws :: st.clients).length
              st.clock)
            ws
            { st with
              clients := if ws ∈ st.clients then st.clients else ws :: st.clients,
              clock := st.clock + 1 } with
          clock := st.clock + 2 }, false) := by
  simp only [register_client, hw, Bool.false_eq_true, if_false]
  rfl

/-- The attempt log produced by a successful `register_client`: the welcome
attempt to the new handle (stamped at the current clock, with the count
already including the new handle), then the join attempts to every other
registered handle (stamped one tick later, same count), then whatever the
reap phase of the join broadcast appends. -/
lemma register_client_log (F : Nat → Bool) (fuel : Nat) (ws : Nat)
    (st : ServerState) (hws : ws ∉ st.clients) (hw : F ws = false) :
    ∃ t, ((register_client F fuel ws st).1).log
      = st.log ++ (ws, welcome_env (st.clients.length + 1) st.clock)
          :: (st.clients.map
              (fun c => (c, join_env (st.clients.length + 1) (st.clock + 1))))
          ++ t := by
  rw [register_client_ok F fuel ws st hw, if_neg hws]
  rw [broadcast_to_others]
  have hcl : ({ attempt F (welcome_env (ws :: st.clients).length st.clock) ws
      { st with clients := ws :: st.clients, clock := st.clock + 1 } with
      clock := st.clock + 2 } : ServerState).clients = ws :: st.clients := rfl
  by_cases he : (ws :: st.clients).isEmpty
  · exact absurd (List.isEmpty_iff.mp he) (List.cons_ne_nil ws st.clients)
  · rw [hcl, if_neg he]
    have htg : (ws :: st.clients).filter (fun c => c != ws) = st.clients := by
      rw [List.filter_cons]
      simp only [bne_self_eq_false, Bool.false_eq_true, if_false]
      exact filter_ne_of_not_mem ws st.clients hws
    rw [htg]
    obtain ⟨t, ht⟩ := (unregister_list_stExt F fuel (st.clients.filter F)
      (deliver F (join_env (ws :: st.clients).length (st.clock + 1)) st.clients
        ({ attempt F (welcome_env (ws :: st.clients).length st.clock) ws
          { st with clients := ws :: st.clients, clock := st.clock + 1 } with
          clock := st.clock + 2 }))).2.2
    rw [ht, deliver_log]
    refine ⟨t, ?_⟩
    have hal : ({ attempt F (welcome_env (ws :: st.clients).length st.clock) ws
        { st with clients := ws :: st.clients, clock := st.clock + 1 } with
        clock := st.clock + 2 } : ServerState).log
        = st.log ++ [(ws, welcome_env (st.clients.length + 1) st.clock)] := by
      rw [show (ws :: st.clients).length = st.clients.length + 1 from
        List.length_cons ws st.clients]
      rfl
    rw [hal, List.length_cons]
    simp [List.append_assoc]

-- ### Concrete fixtures used by the witnesses

/-- A transport behaviour where exactly handle 3 fails every send. -/
def ex_fails : Nat → Bool := fun c => c == 3

/-- No handle ever fails a send. -/
def ex_ok : Nat → Bool := fun _ => false

/-- A hub with three registered handles and empty inboxes. -/
def ex_state : ServerState := ⟨[1, 2, 3], fun _ => [], [], 0⟩

/-- A hub with two registered handles and empty inboxes. -/
def ex_state2 : ServerState := ⟨[1, 2], fun _ => [], [], 0⟩

/-- A hub with one registered handle and empty inboxes. -/
def ex_state1 : ServerState := ⟨[1], fun _ => [], [], 0⟩

/-- A chat envelope used as a broadcast payload in witnesses. -/
def ex_msg : Envelope := ⟨"message", "hi", some "A", 0⟩

/-- An external call sequence exercising duplicate registration and
duplicate unregistration. -/
def ex_ops : List RegOp :=
  [RegOp.reg 1, RegOp.reg 2, RegOp.reg 1, RegOp.unreg 2, RegOp.unreg 2]

-- ### The claims

/-- Claim C1: for every broadcast pass (`broadcast_to_all`, or
`broadcast_to_others` with a sender that is not itself a failing registry
member) over a duplicate-free registry, every snapshot member whose sends
succeed receives the message (its inbox gains the message, possibly
followed by leave notifications from the reap phase), and the registry
afterwards is exactly the snapshot minus the failing members: the failed
subset is unregistered after the delivery loop, the members whose send
succeeded remain, and the call returns normally (the operations are total
functions; per-recipient errors are swallowed into reaping and never reach
the caller).  Instantiated at a snapshot consisting of handles A, B, X with
only X failing, this says A and B both receive the message and exactly X is
removed. -/
theorem c1_broadcast_failure_reaps_exactly_failed (F : Nat → Bool)
    (fuel : Nat) (m : Envelope) (st : ServerState) (hnd : st.clients.Nodup)
    (hlen : st.clients.length < fuel) :
    ((broadcast_to_all F fuel m st).clients
        = st.clients.filter (fun c => !(F c)) ∧
      ∀ c ∈ st.clients, F c = false →
        ∃ t, (broadcast_to_all F fuel m st).inbox c
          = st.inbox c ++ [m] ++ t) ∧
    (∀ s, F s = false ∨ s ∉ st.clients →
      (broadcast_to_others F fuel m s st).clients
          = st.clients.filter (fun c => !(F c)) ∧
      ∀ c ∈ st.clients, c ≠ s → F c = false →
        ∃ t, (broadcast_to_others F fuel m s st).inbox c
          = st.inbox c ++ [m] ++ t) := by
  refine ⟨⟨broadcast_to_all_clients F fuel m st hnd hlen, ?_⟩, ?_⟩
  · intro c hc hf
    exact broadcast_to_all_inbox F fuel m st c hnd (by omega) hc hf
  · intro s hs
    exact ⟨broadcast_to_others_clients F fuel m s st hnd (by omega) hs,
      fun c hc hcs hf =>
        broadcast_to_others_delivers F fuel m s st c hnd hc hcs hf⟩

theorem c1_witness :
    (ex_state.clients.Nodup ∧ ex_state.clients.length < 4) ∧
    (broadcast_to_all ex_fails 4 ex_msg ex_state).clients
      = ex_state.clients.filter (fun c => !(ex_fails c)) ∧
    (∃ t, (broadcast_to_all ex_fails 4 ex_msg ex_state).inbox 1
      = ex_state.inbox 1 ++ [ex_msg] ++ t) ∧
    (broadcast_to_others ex_fails 4 ex_msg 5 ex_state).clients
      = ex_state.clients.filter (fun c => !(ex_fails c)) ∧
    (∃ t, (broadcast_to_others ex_fails 4 ex_msg 5 ex_state).inbox 2
      = ex_state.inbox 2 ++ [ex_msg] ++ t) :=
  ⟨⟨by decide, by decide⟩,
   (c1_broadcast_failure_reaps_exactly_failed ex_fails 4 ex_msg ex_state
     (by decide) (by decide)).1.1,
   (c1_broadcast_failure_reaps_exactly_failed ex_fails 4 ex_msg ex_state
     (by decide) (by decide)).1.2 1 (by decide) (by decide),
   ((c1_broadcast_failure_reaps_exactly_failed ex_fails 4 ex_msg ex_state
     (by decide) (by decide)).2 5 (Or.inr (by decide))).1,
   ((c1_broadcast_failure_reaps_exactly_failed ex_fails 4 ex_msg ex_state
     (by decide) (by decide)).2 5 (Or.inr (by decide))).2 2 (by decide)
     (by decide) (by decide)⟩

/-- Claim C2: `broadcast_to_others msg h` never delivers `msg` to the
excluded handle `h` (the pass skips `h`, and the only envelopes the reap
phase can add to `h`'s inbox are `"system"` leave notifications, which a
chat `msg` is not), and it delivers `msg` to every other handle of the
registry snapshot taken at call start whose sends succeed. -/
theorem c2_broadcast_to_others_excludes_sender (F : Nat → Bool) (fuel : Nat)
    (m : Envelope) (s : Nat) (st : ServerState) (hm : m.type = "message")
    (hni : m ∉ st.inbox s) (hnd : st.clients.Nodup) :
    m ∉ (broadcast_to_others F fuel m s st).inbox s ∧
    ∀ c ∈ st.clients, c ≠ s → F c = false →
      ∃ t, (broadcast_to_others F fuel m s st).inbox c
        = st.inbox c ++ [m] ++ t :=
  ⟨broadcast_to_others_not_sender F fuel m s st hm hni,
   fun c hc hcs hf =>
     broadcast_to_others_delivers F fuel m s st c hnd hc hcs hf⟩

theorem c2_witness :
    (ex_msg.type = "message" ∧ ex_msg ∉ ex_state.inbox 1 ∧
      ex_state.clients.Nodup) ∧
    ex_msg ∉ (broadcast_to_others ex_fails 4 ex_msg 1 ex_state).inbox 1 ∧
    (∃ t, (broadcast_to_others ex_fails 4 ex_msg 1 ex_state).inbox 2
      = ex_state.inbox 2 ++ [ex_msg] ++ t) :=
  ⟨⟨by decide, by decide, by decide⟩,
   (c2_broadcast_to_others_excludes_sender ex_fails 4 ex_msg 1 ex_state
     (by decide) (by decide) (by decide)).1,
   (c2_broadcast_to_others_excludes_sender ex_fails 4 ex_msg 1 ex_state
     (by decide) (by decide) (by decide)).2 2 (by decide) (by decide)
     (by decide)⟩

/-- Claim C3: starting from the empty registry, after any finite sequence of
`register_client` / `unregister_client` calls (with no delivery failures, so
that the join/leave notification broadcasts do not additionally reap
anybody), the registry is duplicate-free and its size equals the number of
distinct handles currently registered and not since unregistered (the
fold of set-insert / set-erase over the call sequence); being a `Nat`
cardinality it can never go negative.  Moreover registering an
already-present handle leaves the membership unchanged (set-level no-op). -/
theorem c3_registry_size_matches_live_set (F : Nat → Bool) (fuel : Nat)
    (ops : List RegOp) (hnf : ∀ c, F c = false) :
    (apply_ops F fuel ops init_state).clients.Nodup ∧
    (apply_ops F fuel ops init_state).clients.toFinset = live_set ops ∧
    (apply_ops F fuel ops init_state).clients.length = (live_set ops).card ∧
    ∀ (c : Nat) (st : ServerState), c ∈ st.clients →
      ((register_client F fuel c st).1).clients = st.clients := by
  obtain ⟨h1, h2⟩ := apply_ops_invariant F fuel hnf ops init_state
    (by simp [init_state])
  have h2e : (apply_ops F fuel ops init_state).clients.toFinset
      = live_set ops := by
    rw [h2]
    have : (init_state.clients.toFinset : Finset Nat) = ∅ := by
      simp [init_state]
    rw [this, live_set]
  refine ⟨h1, h2e, ?_, ?_⟩
  · rw [← h2e, List.toFinset_card_of_nodup h1]
  · intro c st hc
    rw [nf_register_client_clients F hnf fuel c st, if_pos hc]

theorem c3_witness :
    (∀ c, ex_ok c = false) ∧
    (apply_ops ex_ok 3 ex_ops init_state).clients.Nodup ∧
    (apply_ops ex_ok 3 ex_ops init_state).clients.toFinset = live_set ex_ops ∧
    (apply_ops ex_ok 3 ex_ops init_state).clients.length
      = (live_set ex_ops).card ∧
    (1 ∈ ex_state1.clients ∧
      ((register_client ex_ok 3 1 ex_state1).1).clients
        = ex_state1.clients) :=
  ⟨fun _ => rfl,
   (c3_registry_size_matches_live_set ex_ok 3 ex_ops (fun _ => rfl)).1,
   (c3_registry_size_matches_live_set ex_ok 3 ex_ops (fun _ => rfl)).2.1,
   (c3_registry_size_matches_live_set ex_ok 3 ex_ops (fun _ => rfl)).2.2.1,
   ⟨by decide,
    (c3_registry_size_matches_live_set ex_ok 3 ex_ops (fun _ => rfl)).2.2.2 1
      ex_state1 (by decide)⟩⟩

/-- Claim C4: on a duplicate-free registry, `unregister_client` on an absent
handle is an exact no-op (same state, no error, nothing sent), and calling
`unregister_client h` twice in a row produces exactly the state of calling
it once — in particular the second call broadcasts no duplicate leave
notification. -/
theorem c4_unregister_client_idempotent (F : Nat → Bool) (fuel : Nat)
    (c : Nat) (st : ServerState) (hnd : st.clients.Nodup) :
    (c ∉ st.clients → unregister_client F fuel c st = st) ∧
    unregister_client F fuel c (unregister_client F fuel c st)
      = unregister_client F fuel c st := by
  refine ⟨unregister_client_not_mem F fuel c st, ?_⟩
  by_cases hc : c ∈ st.clients
  · refine unregister_client_not_mem F fuel c _ ?_
    rw [unregister_client, reapOne, if_pos hc]
    by_cases he : (st.clients.erase c).isEmpty
    · rw [if_pos he]
      intro h
      have hmem : c ∈ st.clients.erase c := h
      exact (hnd.mem_erase_iff.mp hmem).1 rfl
    · rw [if_neg he]
      intro h
      have hsub := (broadcast_to_all_stExt F fuel
        (leave_env (st.clients.erase c).length st.clock)
        { st with clients := st.clients.erase c, clock := st.clock + 1 }).1
      have hmem : c ∈ st.clients.erase c := hsub.subset h
      exact (hnd.mem_erase_iff.mp hmem).1 rfl
  · rw [unregister_client_not_mem F fuel c st hc]
    exact unregister_client_not_mem F fuel c st hc

theorem c4_witness :
    ex_state.clients.Nodup ∧
    unregister_client ex_fails 2 2 (unregister_client ex_fails 2 2 ex_state)
      = unregister_client ex_fails 2 2 ex_state ∧
    ((9 : Nat) ∉ ex_state.clients ∧
      unregister_client ex_fails 2 9 ex_state = ex_state) :=
  ⟨by decide,
   (c4_unregister_client_idempotent ex_fails 2 2 ex_state (by decide)).2,
   ⟨by decide,
    (c4_unregister_client_idempotent ex_fails 2 9 ex_state (by decide)).1
      (by decide)⟩⟩

/-- Claim C5, evaluated at the failing input: `register_client` runs before
`handle_client`'s try/finally (src/broadcast-server.py line 105), and its
welcome send (line 37) is not guarded, so when the new handle's transport
fails the exception propagates out of `handle_client` (result flag `true`)
*before* the `finally` block: the handle is left registered (here handle 3
is still a member afterwards, alongside handle 1), no unregistration
happens, and no leave notification is sent (handle 1's inbox stays empty) —
contradicting the claim that every exit path unregisters the handle. -/
theorem c5_registration_failure_skips_cleanup :
    (handle_client ex_fails 5 3 [] ex_state1).2 = true ∧
    3 ∈ (handle_client ex_fails 5 3 [] ex_state1).1.clients ∧
    1 ∈ (handle_client ex_fails 5 3 [] ex_state1).1.clients ∧
    (handle_client ex_fails 5 3 [] ex_state1).1.inbox 1 = [] := by
  refine ⟨?_, ?_, ?_, ?_⟩ <;> decide

/-- Claim C6 counterexample: an inbound chat message whose `sender` field is
present but empty is broadcast with sender `""`, not `"Anonymous"` —
`data.get("sender", "Anonymous")` (src/broadcast-server.py line 118)
substitutes the default only when the key is missing, not when its value is
empty. -/
theorem c6_empty_sender_not_defaulted :
    (mk_broadcast_msg ⟨some "message", some "hi", some ""⟩ 0).sender
      = some "" ∧
    (mk_broadcast_msg ⟨some "message", some "hi", some ""⟩ 0).sender
      ≠ some "Anonymous" := by
  refine ⟨rfl, ?_⟩
  decide

/-- Claim C6 as amended: the hub-stamped broadcast envelope carries sender
`"Anonymous"` exactly when the input's `sender` field is *absent*; when the
field is present — even as the empty string — its value is carried through
unchanged.  Body is taken from the input (`""` when absent) and the
timestamp is the hub's fresh stamp; `handle_client` broadcasts exactly this
envelope for every inbound object of type `"message"`. -/
theorem c6_sender_default_amended (d : JsonData) (ts : Nat) :
    (mk_broadcast_msg d ts).type = "message" ∧
    (d.sender = none → (mk_broadcast_msg d ts).sender = some "Anonymous") ∧
    (∀ s, d.sender = some s → (mk_broadcast_msg d ts).sender = some s) ∧
    (mk_broadcast_msg d ts).message = d.message.getD "" ∧
    (mk_broadcast_msg d ts).timestamp = ts ∧
    (∀ (F : Nat → Bool) (fuel : Nat) (st : ServerState),
      d.type = some "message" →
      process_inbound F fuel (some d) st
        = broadcast_to_all F fuel (mk_broadcast_msg d st.clock)
            { st with clock := st.clock + 1 }) := by
  refine ⟨rfl, ?_, ?_, rfl, rfl, ?_⟩
  · intro h
    simp [mk_broadcast_msg, h]
  · intro s h
    simp [mk_broadcast_msg, h]
  · intro F fuel st ht
    rw [process_inbound, if_pos ht]

theorem c6_witness :
    ((⟨some "message", some "hi", none⟩ : JsonData).sender = none ∧
      (mk_broadcast_msg ⟨some "message", some "hi", none⟩ 7).sender
        = some "Anonymous") ∧
    ((⟨some "message", some "hi", some "Bob"⟩ : JsonData).sender
        = some "Bob" ∧
      (mk_broadcast_msg ⟨some "message", some "hi", some "Bob"⟩ 7).sender
        = some "Bob") ∧
    process_inbound ex_fails 4
        (some ⟨some "message", some "hi", none⟩) ex_state
      = broadcast_to_all ex_fails 4
          (mk_broadcast_msg ⟨some "message", some "hi", none⟩ ex_state.clock)
          { ex_state with clock := ex_state.clock + 1 } :=
  ⟨⟨rfl, (c6_sender_default_amended ⟨some "message", some "hi", none⟩ 7).2.1
      rfl⟩,
   ⟨rfl, (c6_sender_default_amended ⟨some "message", some "hi", some "Bob"⟩
      7).2.2.1 "Bob" rfl⟩,
   (c6_sender_default_amended ⟨some "message", some "hi", none⟩
      ex_state.clock).2.2.2.2.2 ex_fails 4 ex_state rfl⟩

/-- Claim C7: an inbound raw message that fails to parse as JSON (such as
the literal bytes not-json, modelled by the `none` inbound item since
`json.loads` raising `JSONDecodeError` is caught at
src/broadcast-server.py line 128) leaves the hub state completely
unchanged — no broadcast, no registry change, no inbox or log change on any
connection — and the message loop simply continues with the remaining
inbound messages, the session staying active. -/
theorem c7_malformed_input_is_ignored (F : Nat → Bool) (fuel : Nat)
    (st : ServerState) (rest : List (Option JsonData)) :
    process_inbound F fuel none st = st ∧
    process_loop F fuel (none :: rest) st = process_loop F fuel rest st :=
  ⟨rfl, rfl⟩

/-- Claim C8: for a new connection (handle not yet registered, welcome send
succeeding), registration adds the handle before either notification is
constructed, so the private welcome envelope and the join announcement both
carry the live count *including* the new client (`length + 1`); in the
global attempt log the welcome send to the new handle comes first, then the
join broadcast to every other registered handle, and everything triggered
by inbound messages comes after — the welcome send is initiated before the
join broadcast and before any inbound message is processed. -/
theorem c8_registration_counts_and_order (F : Nat → Bool) (fuel : Nat)
    (ws : Nat) (ins : List (Option JsonData)) (st : ServerState)
    (hws : ws ∉ st.clients) (hw : F ws = false) :
    (∃ t, ((handle_client F fuel ws ins st).1).log
      = st.log ++ (ws, welcome_env (st.clients.length + 1) st.clock)
          :: (st.clients.map (fun c =>
              (c, join_env (st.clients.length + 1) (st.clock + 1)))) ++ t) ∧
    (welcome_env (st.clients.length + 1) st.clock).message
      = "Welcome! You are now connected to the broadcast server. "
          ++ toString (st.clients.length + 1) ++ " client(s) online." ∧
    (join_env (st.clients.length + 1) (st.clock + 1)).message
      = "A new client has joined the chat. "
          ++ toString (st.clients.length + 1) ++ " client(s) online." := by
  refine ⟨?_, rfl, rfl⟩
  have hflag : (register_client F fuel ws st).2 = false := by
    rw [register_client_snd, hw]
  have hh : handle_client F fuel ws ins st
      = (unregister_client F fuel ws
          (process_loop F fuel ins (register_client F fuel ws st).1),
         false) := by
    simp only [handle_client, hflag, Bool.false_eq_true, if_false]
  rw [hh]
  show ∃ t, (unregister_client F fuel ws
      (process_loop F fuel ins (register_client F fuel ws st).1)).log = _
  obtain ⟨t1, ht1⟩ := register_client_log F fuel ws st hws hw
  obtain ⟨t2, ht2⟩ := (process_loop_stExt F fuel ins
    (register_client F fuel ws st).1).2.2
  obtain ⟨t3, ht3⟩ := (unregister_client_stExt F fuel ws
    (process_loop F fuel ins (register_client F fuel ws st).1)).2.2
  refine ⟨t1 ++ (t2 ++ t3), ?_⟩
  rw [ht3, ht2, ht1]
  simp [List.append_assoc]

theorem c8_witness :
    ((9 : Nat) ∉ ex_state2.clients ∧ ex_fails 9 = false) ∧
    (∃ t, ((handle_client ex_fails 4 9 [] ex_state2).1).log
      = ex_state2.log ++ (9, welcome_env (ex_state2.clients.length + 1)
            ex_state2.clock)
          :: (ex_state2.clients.map (fun c =>
              (c, join_env (ex_state2.clients.length + 1)
                (ex_state2.clock + 1)))) ++ t) :=
  ⟨⟨by decide, by decide⟩,
   (c8_registration_counts_and_order ex_fails 4 9 [] ex_state2 (by decide)
     (by decide)).1⟩

/-- Claim C10: an inbound object that parses as JSON but whose `type` field
is anything other than the string `"message"` — including a client-supplied
`"system"` type or a missing `type` field — is ignored entirely: the hub
state (registry, every inbox, the attempt log) is unchanged, nothing is
broadcast, and the message loop continues with the remaining inbound
messages; in particular a client can never inject a system announcement. -/
theorem c10_non_message_type_ignored (F : Nat → Bool) (fuel : Nat)
    (d : JsonData) (st : ServerState) (rest : List (Option JsonData))
    (ht : d.type ≠ some "message") :
    process_inbound F fuel (some d) st = st ∧
    process_loop F fuel (some d :: rest) st
      = process_loop F fuel rest st := by
  have h1 : process_inbound F fuel (some d) st = st := by
    simp only [process_inbound]
    rw [if_neg ht]
  have h2 : process_loop F fuel (some d :: rest) st
      = process_loop F fuel rest (process_inbound F fuel (some d) st) := rfl
  exact ⟨h1, by rw [h2, h1]⟩

theorem c10_witness :
    ((⟨some "system", some "evil", none⟩ : JsonData).type
        ≠ some "message" ∧
      process_inbound ex_fails 4
          (some ⟨some "system", some "evil", none⟩) ex_state = ex_state) ∧
    ((⟨none, some "x", none⟩ : JsonData).type ≠ some "message" ∧
      process_loop ex_fails 4 [some ⟨none, some "x", none⟩] ex_state
        = process_loop ex_fails 4 [] ex_state) :=
  ⟨⟨by decide,
    (c10_non_message_type_ignored ex_fails 4 ⟨some "system", some "evil", none⟩
      ex_state [] (by decide)).1⟩,
   ⟨by decide,
    (c10_non_message_type_ignored ex_fails 4 ⟨none, some "x", none⟩
      ex_state [] (by decide)).2⟩⟩
